import Mathlib

/-!
Shallow embedding of `heic_to_png.py`: a HEIC-to-PNG converter with a
single-file mode and a batch mode over a directory.

The filesystem is modelled as an association list from paths (lists of
name components, each a list of characters) to entries (files or
directories).  The external image codec (pillow / pillow-heif) is an
oracle `d : Path → Except String Image` mapping a source path to a decode
result; decoded images carry a color-mode tag and per-pixel channel
lists.  Exceptions are modelled with `Except`: the error branch carries
the raised error and, as in Python, no filesystem mutation that did not
happen before the raise.
-/

deriving instance DecidableEq for Except

set_option synthInstance.maxSize 4000

namespace HeicPng

/-- Color modes of decoded images (PIL mode tags relevant to the code:
`L` grayscale, `LA` grayscale+alpha, `P` palette-indexed, `RGB`, `RGBA`). -/
inductive Mode where
  | L | LA | P | RGB | RGBA
deriving DecidableEq

/-- A decoded in-memory image: a mode tag, pixels as channel-value lists
(one list per pixel, length determined by the mode), and a palette used
when the mode is `P`. -/
structure Image where
  mode : Mode
  pixels : List (List Nat)
  palette : List (Nat × Nat × Nat)
deriving DecidableEq

/-- Number of channels per pixel for each mode. -/
def Mode.channels : Mode → Nat
  | .L => 1
  | .LA => 2
  | .P => 1
  | .RGB => 3
  | .RGBA => 4

/-- A pixel's channel lists have the length prescribed by the mode. -/
def Image.WF (img : Image) : Prop :=
  ∀ px ∈ img.pixels, px.length = img.mode.channels

/-- Alpha blending of one channel value over an opaque white background,
with the alpha value as the blend weight (the codec's paste-with-mask). -/
def blendWhite (c a : Nat) : Nat := (c * a + 255 * (255 - a)) / 255

/-- Composite one pixel over white using its last channel as the mask
(`img.split()[-1]`), producing an RGB pixel. -/
def compositePixel : Mode → List Nat → List Nat
  | .RGBA, px =>
    let a := px.getLastD 255
    [blendWhite (px.headD 0) a,
     blendWhite ((px.drop 1).headD 0) a,
     blendWhite ((px.drop 2).headD 0) a]
  | .LA, px =>
    let a := px.getLastD 255
    let l := blendWhite (px.headD 0) a
    [l, l, l]
  | _, px => px

/-- Lines 100-103: paste the image over a white `RGB` background of the
same size, masked by the alpha channel. -/
def compositeOverWhite (img : Image) : Image :=
  ⟨Mode.RGB, img.pixels.map (compositePixel img.mode), []⟩

/-- Channel mapping of `img.convert('RGB')` for one pixel. -/
def toRGBPixel (pal : List (Nat × Nat × Nat)) : Mode → List Nat → List Nat
  | .L, px => let l := px.headD 0; [l, l, l]
  | .LA, px => let l := px.headD 0; [l, l, l]
  | .P, px => let c := pal.getD (px.headD 0) (0, 0, 0); [c.1, c.2.1, c.2.2]
  | .RGB, px => px
  | .RGBA, px => px.take 3

/-- Lines 104-105: `img.convert('RGB')`. -/
def rgbConvert (img : Image) : Image :=
  ⟨Mode.RGB, img.pixels.map (toRGBPixel img.palette img.mode), []⟩

/-- Lines 100-105: the color-normalization step of `_convert_single_file`.
`RGBA`/`LA` images are composited over white; other non-`RGB` modes are
converted to `RGB`; `RGB` images pass through. -/
def normalizeColor (img : Image) : Image :=
  if img.mode = Mode.RGBA ∨ img.mode = Mode.LA then compositeOverWhite img
  else if img.mode ≠ Mode.RGB then rgbConvert img
  else img

/-! ## Paths and the filesystem -/

/-- A path component (file or directory name), as a character list. -/
abbrev Name := List Char

/-- A filesystem path: a list of name components. -/
abbrev Path := List Name

/-- A filesystem entry: a regular file (with its decoded content when it
is a PNG this program wrote, `none` for other content) or a directory. -/
inductive Entry where
  | file (content : Option Image)
  | dir
deriving DecidableEq

/-- The filesystem: an association list from paths to entries. -/
abbrev FS := List (Path × Entry)

/-- Look up the entry at a path. -/
def lookupFS (fs : FS) (p : Path) : Option Entry :=
  (fs.find? (fun e => decide (e.1 = p))).map Prod.snd

/-- `Path.exists()`. -/
def pathExists (fs : FS) (p : Path) : Bool :=
  (lookupFS fs p).isSome

/-- `Path.is_dir()`. -/
def isDirFS (fs : FS) (p : Path) : Bool :=
  decide (lookupFS fs p = some Entry.dir)

/-- `Path.is_file()`. -/
def isFileFS (fs : FS) (p : Path) : Bool :=
  match lookupFS fs p with
  | some (Entry.file _) => true
  | _ => false

/-- Write a file at `p`, replacing whatever non-directory entry was there. -/
def setFile (fs : FS) (p : Path) (img : Image) : FS :=
  (p, Entry.file (some img)) :: fs.filter (fun e => !(decide (e.1 = p)))

/-- Render a path as the string Python would show for it. -/
def pathStr (p : Path) : String :=
  String.intercalate "/" (p.map (fun n => String.mk n))

/-! ## Name components: stem, with_suffix, glob matching -/

/-- The characters of `".heic"`. -/
def dotHeic : Name := ['.', 'h', 'e', 'i', 'c']

/-- The characters of `".png"`. -/
def dotPng : Name := ['.', 'p', 'n', 'g']

/-- The characters of `"converted"`, the default batch output directory. -/
def convertedName : Name := ['c', 'o', 'n', 'v', 'e', 'r', 't', 'e', 'd']

/-- Index of the last `'.'` in a name, if any. -/
def lastDotIdx (n : Name) : Option Nat :=
  (n.reverse.findIdx? (· == '.')).map (fun j => n.length - 1 - j)

/-- `PurePath.stem`: the name with its extension removed.  As in
`pathlib`, a dot at position `i` only starts an extension when
`0 < i < len - 1` (so `".bashrc"` and `"foo."` have no extension). -/
def nameStem (n : Name) : Name :=
  match lastDotIdx n with
  | some i => if 0 < i ∧ i + 1 < n.length then n.take i else n
  | none => n

/-- `Path.with_suffix('.png')` applied to the last component. -/
def withSuffixPng (p : Path) : Path :=
  match p.getLast? with
  | some n => p.dropLast ++ [nameStem n ++ dotPng]
  | none => p

/-- Whether `glob("*.heic")` matches a name: `*` matches any (possibly
empty) run of characters, so exactly the names ending with `".heic"`;
`pathlib.Path.glob` matches hidden names (leading dot) too, so `".heic"`
and `".heic.heic"` are both matched. -/
def matchesHeic (n : Name) : Bool :=
  dotHeic.isSuffixOf n

/-- The names of the entries directly inside directory `dir`. -/
def childNames (fs : FS) (dir : Path) : List Name :=
  (fs.map Prod.fst).filterMap (fun p =>
    match p.getLast? with
    | some n => if p.dropLast = dir then some n else none
    | none => none)

/-- Line 43: `input_path.glob("*.heic")` — the matching entry names. -/
def globHeic (fs : FS) (dir : Path) : List Name :=
  (childNames fs dir).filter matchesHeic

/-! ## mkdir -/

/-- The Python exceptions the converter raises or lets propagate. -/
inductive PyError where
  | fileNotFoundError (msg : String)
  | valueError (msg : String)
  | fileExistsError (p : Path)
  | exception (msg : String)
deriving DecidableEq

/-- Create a single directory: no-op when a directory is already there
(`exist_ok=True`), `FileExistsError` when a non-directory is there. -/
def mkdirOne (fs : FS) (p : Path) : Except PyError FS :=
  match lookupFS fs p with
  | some Entry.dir => Except.ok fs
  | some (Entry.file _) => Except.error (PyError.fileExistsError p)
  | none => Except.ok ((p, Entry.dir) :: fs)

/-- The nonempty initial segments of a path, shortest first. -/
def initSegs (p : Path) : List Path :=
  (List.range p.length).map (fun i => p.take (i + 1))

/-- Line 41: `output_path.mkdir(parents=True, exist_ok=True)` — create
the directory and any missing ancestors. -/
def mkdirParents (fs : FS) (p : Path) : Except PyError FS :=
  (initSegs p).foldlM mkdirOne fs

/-! ## Single-file conversion (`_convert_single_file`, lines 87-111) -/

/-- `img.save(output_file, 'PNG', ...)`: store the encoded image at the
output path.  Fails when the target is a directory or when the parent
directory does not exist (a one-component path writes into the current
directory, which exists). -/
def savePNG (fs : FS) (p : Path) (img : Image) : Except String FS :=
  if p = [] then Except.error "FileNotFoundError: "
  else if isDirFS fs p then Except.error ("IsADirectoryError: " ++ pathStr p)
  else if p.length = 1 || isDirFS fs p.dropLast then Except.ok (setFile fs p img)
  else Except.error ("FileNotFoundError: " ++ pathStr p)

/-- The `try` body of `_convert_single_file` (lines 97-108): decode the
source via the codec oracle `d`, normalize color, save as PNG, return the
output path. -/
def convertBody (d : Path → Except String Image) (fs : FS)
    (input output : Path) : Except String (FS × Path) :=
  match d input with
  | Except.error e => Except.error e
  | Except.ok img =>
    match savePNG fs output (normalizeColor img) with
    | Except.error e => Except.error e
    | Except.ok fs' => Except.ok (fs', output)

/-- Line 111's wrapped message: `f"Error converting {input_file}: {str(e)}"`. -/
def convErrMsg (input : Path) (cause : String) : String :=
  "Error converting " ++ pathStr input ++ ": " ++ cause

/-- `_convert_single_file` (lines 87-111): the body, with every raised
error re-raised as `Exception(f"Error converting {input_file}: {e}")`. -/
def convert_single_file (d : Path → Except String Image) (fs : FS)
    (input output : Path) : Except String (FS × Path) :=
  match convertBody d fs input output with
  | Except.ok r => Except.ok r
  | Except.error e => Except.error (convErrMsg input e)

/-! ## Batch orchestration (`convert_heic_to_png`, batch branch) -/

/-- Lines 52-57: one conversion task per discovered HEIC file, pairing
the source file with `output_path / f"{heic_file.stem}.png"`. -/
def batchTasks (fs : FS) (inputDir outDir : Path) : List (Path × Path) :=
  (globHeic fs inputDir).map
    (fun n => (inputDir ++ [n], outDir ++ [nameStem n ++ dotPng]))

/-- Lines 60-68: run the tasks, appending each completed task's output
path to the success list, and recording each task's raised error together
with its source file on the error stream (the `except` branch's
`print(..., file=sys.stderr)`).  The thread pool's interleaving is
embedded as one sequential run; tasks write to distinct output files, so
this is a faithful linearization. -/
def runBatch (d : Path → Except String Image) :
    FS → List (Path × Path) → FS × List Path × List (Path × String)
  | fs, [] => (fs, [], [])
  | fs, t :: ts =>
    match convert_single_file d fs t.1 t.2 with
    | Except.ok (fs', o) =>
      let r := runBatch d fs' ts
      (r.1, o :: r.2.1, r.2.2)
    | Except.error e =>
      let r := runBatch d fs ts
      (r.1, r.2.1, (t.1, e) :: r.2.2)

/-- The per-task results of a batch run, in task order: the output path
on success, the `(source file, error message)` record on failure. -/
def runBatchResults (d : Path → Except String Image) :
    FS → List (Path × Path) → FS × List (Except (Path × String) Path)
  | fs, [] => (fs, [])
  | fs, t :: ts =>
    match convert_single_file d fs t.1 t.2 with
    | Except.ok (fs', o) =>
      let r := runBatchResults d fs' ts
      (r.1, Except.ok o :: r.2)
    | Except.error e =>
      let r := runBatchResults d fs ts
      (r.1, Except.error (t.1, e) :: r.2)

/-- The success half of a per-task result. -/
def okPart : Except (Path × String) Path → Option Path
  | Except.ok p => some p
  | Except.error _ => none

/-- The failure half of a per-task result. -/
def errPart : Except (Path × String) Path → Option (Path × String)
  | Except.error e => some e
  | Except.ok _ => none

/-- One task's outcome at a fixed filesystem, tagged with its source file
on failure. -/
def taggedOutcome (d : Path → Except String Image) (fs : FS)
    (t : Path × Path) : Except (Path × String) Path :=
  match convert_single_file d fs t.1 t.2 with
  | Except.ok (_, o) => Except.ok o
  | Except.error e => Except.error (t.1, e)

/-- Whether an `Except` is a success. -/
def isOkE {ε α : Type} : Except ε α → Bool
  | Except.ok _ => true
  | Except.error _ => false

/-! ## Top-level entry point -/

/-- The value `convert_heic_to_png` returns: `str(output_path)` in
single mode, the list of converted files in batch mode. -/
inductive ConvResult where
  | single (p : Path)
  | batch (ps : List Path)
deriving DecidableEq

/-- Lines 37-40: the batch output directory — the given one, else
`input_path / "converted"`. -/
def batchOutDir (input : Path) (output : Option Path) : Path :=
  output.getD (input ++ [convertedName])

/-- Lines 76-81: the single-mode destination — the given output path,
else the input with suffix `.png`; redirected into it as
`output_path / f"{input_path.stem}.png"` when a directory exists there. -/
def singleDest (fs : FS) (input : Path) (output : Option Path) : Path :=
  let out0 := output.getD (withSuffixPng input)
  if isDirFS fs out0 then out0 ++ [nameStem (input.getLastD []) ++ dotPng]
  else out0

/-- `convert_heic_to_png` (lines 13-84).  Returns the final filesystem,
the returned value, and the `(source file, message)` records printed to
the error stream; raised exceptions are the `Except.error` branch. -/
def convert_heic_to_png (d : Path → Except String Image) (fs : FS)
    (input_path : Path) (output_path : Option Path) (batch : Bool) :
    Except PyError (FS × ConvResult × List (Path × String)) :=
  if pathExists fs input_path = false then
    Except.error (PyError.fileNotFoundError
      ("Input path does not exist: " ++ pathStr input_path))
  else if batch then
    if isDirFS fs input_path = false then
      Except.error (PyError.valueError
        "Input path must be a directory when batch=True")
    else
      match mkdirParents fs (batchOutDir input_path output_path) with
      | Except.error e => Except.error e
      | Except.ok fs1 =>
        let heic_files := globHeic fs1 input_path
        if heic_files.isEmpty then Except.ok (fs1, ConvResult.batch [], [])
        else
          let r := runBatch d fs1
            (batchTasks fs1 input_path (batchOutDir input_path output_path))
          Except.ok (r.1, ConvResult.batch r.2.1, r.2.2)
  else
    if isFileFS fs input_path = false then
      Except.error (PyError.valueError
        "Input path must be a file when batch=False")
    else
      match convert_single_file d fs input_path
          (singleDest fs input_path output_path) with
      | Except.error e => Except.error (PyError.exception e)
      | Except.ok (fs', o) => Except.ok (fs', ConvResult.single o, [])

/-! ## Lookup lemmas -/

theorem lookupFS_cons (e : Path × Entry) (fs : FS) (p : Path) :
    lookupFS (e :: fs) p = if e.1 = p then some e.2 else lookupFS fs p := by
  by_cases h : e.1 = p <;> simp [lookupFS, List.find?, h]

theorem lookupFS_filter_ne (fs : FS) (p : Path) : ∀ q,
    lookupFS (fs.filter (fun e => !(decide (e.1 = p)))) q =
      if q = p then none else lookupFS fs q := by
  induction fs with
  | nil => intro q; simp [lookupFS]
  | cons e fs ih =>
    intro q
    by_cases hep : e.1 = p
    · rw [List.filter_cons_of_neg (by simp [hep]), ih q, lookupFS_cons]
      by_cases hqp : q = p
      · simp [hqp]
      · have hne : ¬ e.1 = q := by rw [hep]; exact fun h => hqp h.symm
        simp [hqp, hne]
    · rw [List.filter_cons_of_pos (by simp [hep]), lookupFS_cons, lookupFS_cons]
      by_cases heq : e.1 = q
      · have hqp : ¬ q = p := fun h => hep (heq.trans h)
        simp [heq, hqp]
      · simp [heq, ih q]

theorem lookupFS_setFile (fs : FS) (p : Path) (img : Image) (q : Path) :
    lookupFS (setFile fs p img) q =
      if q = p then some (Entry.file (some img)) else lookupFS fs q := by
  rw [setFile, lookupFS_cons]
  by_cases hqp : q = p
  · simp [hqp]
  · have hpq : ¬ p = q := fun h => hqp h.symm
    simp [hpq, hqp, lookupFS_filter_ne]

theorem isDirFS_setFile (fs : FS) (p : Path) (img : Image) (q : Path)
    (h : q ≠ p) : isDirFS (setFile fs p img) q = isDirFS fs q := by
  simp [isDirFS, lookupFS_setFile, h]

/-! ## Shape and stability of single-file conversion -/

theorem convert_single_file_error (d : Path → Except String Image)
    (fs : FS) (input output : Path) (e : String)
    (h : convert_single_file d fs input output = Except.error e) :
    ∃ cause, e = convErrMsg input cause := by
  unfold convert_single_file at h
  cases hb : convertBody d fs input output with
  | ok r => rw [hb] at h; cases h
  | error c => rw [hb] at h; exact ⟨c, (by cases h; rfl)⟩

theorem savePNG_ok (fs : FS) (p : Path) (img : Image) (fs2 : FS)
    (h : savePNG fs p img = Except.ok fs2) : fs2 = setFile fs p img := by
  unfold savePNG at h
  split at h
  · cases h
  · split at h
    · cases h
    · split at h
      · cases h; rfl
      · cases h

theorem convert_single_file_ok (d : Path → Except String Image)
    (fs : FS) (src dst : Path) (fs' : FS) (o : Path)
    (h : convert_single_file d fs src dst = Except.ok (fs', o)) :
    o = dst ∧ ∃ img, d src = Except.ok img ∧
      fs' = setFile fs dst (normalizeColor img) := by
  unfold convert_single_file convertBody at h
  cases hd : d src with
  | error e => rw [hd] at h; cases h
  | ok img =>
    rw [hd] at h
    dsimp only at h
    cases hs : savePNG fs dst (normalizeColor img) with
    | error e => rw [hs] at h; cases h
    | ok fs2 =>
      rw [hs] at h
      cases h
      exact ⟨rfl, img, rfl, savePNG_ok _ _ _ _ hs⟩

theorem taggedOutcome_setFile (d : Path → Except String Image)
    (fs : FS) (w : Path) (iw : Image) (t : Path × Path)
    (h1 : w ≠ t.2) (h2 : w ≠ t.2.dropLast) :
    taggedOutcome d (setFile fs w iw) t = taggedOutcome d fs t := by
  have hdir : isDirFS (setFile fs w iw) t.2 = isDirFS fs t.2 :=
    isDirFS_setFile _ _ _ _ (fun h => h1 h.symm)
  have hdir2 : isDirFS (setFile fs w iw) t.2.dropLast =
      isDirFS fs t.2.dropLast :=
    isDirFS_setFile _ _ _ _ (fun h => h2 h.symm)
  unfold taggedOutcome convert_single_file convertBody
  cases hd : d t.1 with
  | error e => rfl
  | ok img =>
    by_cases hnil : t.2 = []
    · simp [savePNG, hnil]
    · by_cases hd1 : isDirFS fs t.2 = true
      · simp [savePNG, hnil, hdir, hd1]
      · by_cases hd2 : (t.2.length = 1 || isDirFS fs t.2.dropLast) = true
        · simp [savePNG, hnil, hdir, hdir2, hd1, hd2]
        · simp [savePNG, hnil, hdir, hdir2, hd1, hd2]

/-! ## Batch-run lemmas -/

theorem runBatch_eq (d : Path → Except String Image) :
    ∀ (ts : List (Path × Path)) (fs : FS),
    runBatch d fs ts =
      ((runBatchResults d fs ts).1,
       (runBatchResults d fs ts).2.filterMap okPart,
       (runBatchResults d fs ts).2.filterMap errPart) := by
  intro ts
  induction ts with
  | nil => intro fs; rfl
  | cons t ts ih =>
    intro fs
    unfold runBatch runBatchResults
    cases h : convert_single_file d fs t.1 t.2 with
    | ok r =>
      cases r with
      | mk fs' o => simp [ih, okPart, errPart, List.filterMap_cons]
    | error e => simp [ih, okPart, errPart, List.filterMap_cons]

theorem runBatchResults_length (d : Path → Except String Image) :
    ∀ (ts : List (Path × Path)) (fs : FS),
    ((runBatchResults d fs ts).2).length = ts.length := by
  intro ts
  induction ts with
  | nil => intro fs; rfl
  | cons t ts ih =>
    intro fs
    unfold runBatchResults
    cases h : convert_single_file d fs t.1 t.2 with
    | ok r => cases r with | mk fs' o => simp [ih]
    | error e => simp [ih]

theorem runBatchResults_spec (d : Path → Except String Image) :
    ∀ (ts : List (Path × Path)) (fs : FS),
    ∀ pr ∈ ((runBatchResults d fs ts).2).zip ts,
      pr.1 = Except.ok pr.2.2 ∨ ∃ e, pr.1 = Except.error (pr.2.1, e) := by
  intro ts
  induction ts with
  | nil => intro fs pr hpr; simp [runBatchResults] at hpr
  | cons t ts ih =>
    intro fs pr hpr
    unfold runBatchResults at hpr
    cases h : convert_single_file d fs t.1 t.2 with
    | ok r =>
      cases r with
      | mk fs' o =>
        rw [h] at hpr
        simp only [List.zip_cons_cons, List.mem_cons] at hpr
        rcases hpr with hpr | hpr
        · subst hpr
          left
          exact congrArg Except.ok (convert_single_file_ok d fs t.1 t.2 fs' o h).1
        · exact ih fs' pr hpr
    | error e =>
      rw [h] at hpr
      simp only [List.zip_cons_cons, List.mem_cons] at hpr
      rcases hpr with hpr | hpr
      · subst hpr; right; exact ⟨e, rfl⟩
      · exact ih fs pr hpr

theorem filterMap_parts_length :
    ∀ (rs : List (Except (Path × String) Path)),
    (rs.filterMap okPart).length + (rs.filterMap errPart).length = rs.length := by
  intro rs
  induction rs with
  | nil => rfl
  | cons r rs ih =>
    cases r with
    | ok p => simp [List.filterMap_cons, okPart, errPart, ← ih]; omega
    | error e => simp [List.filterMap_cons, okPart, errPart, ← ih]; omega

theorem runBatchResults_stable (d : Path → Except String Image) (od : Path) :
    ∀ (ts : List (Path × Path)) (fs : FS),
    (∀ t ∈ ts, ∃ n, t.2 = od ++ [n]) →
    ((ts.map Prod.snd).Nodup) →
    (runBatchResults d fs ts).2 = ts.map (taggedOutcome d fs) := by
  intro ts
  induction ts with
  | nil => intro fs _ _; rfl
  | cons t ts ih =>
    intro fs hshape hnd
    simp only [List.map_cons, List.nodup_cons, List.mem_map] at hnd
    unfold runBatchResults
    cases h : convert_single_file d fs t.1 t.2 with
    | ok r =>
      cases r with
      | mk fs' o =>
        obtain ⟨ho, img, himg, hfs'⟩ := convert_single_file_ok d fs t.1 t.2 fs' o h
        have hhead : taggedOutcome d fs t = Except.ok o := by
          unfold taggedOutcome; rw [h]
        have htail : (runBatchResults d fs' ts).2 = ts.map (taggedOutcome d fs) := by
          rw [ih fs' (fun t' ht' => hshape t' (List.mem_cons_of_mem t ht'))
                hnd.2]
          apply List.map_congr_left
          intro t' ht'
          rw [hfs']
          apply taggedOutcome_setFile
          · intro hcontra
            exact hnd.1 ⟨t', ht', hcontra.symm⟩
          · obtain ⟨n', hn'⟩ := hshape t' (List.mem_cons_of_mem t ht')
            obtain ⟨n, hn⟩ := hshape t (List.mem_cons_self t ts)
            rw [hn', hn, List.dropLast_concat]
            intro hcontra
            have := congrArg List.length hcontra
            simp at this
        simp [hhead, htail]
    | error e =>
      have hhead : taggedOutcome d fs t = Except.error (t.1, e) := by
        unfold taggedOutcome; rw [h]
      have htail := ih fs (fun t' ht' => hshape t' (List.mem_cons_of_mem t ht'))
        hnd.2
      simp [hhead, htail]

/-! ## mkdir lemmas -/

theorem isDirFS_iff (fs : FS) (p : Path) :
    isDirFS fs p = true ↔ lookupFS fs p = some Entry.dir := by
  simp [isDirFS]

theorem isFileFS_iff (fs : FS) (p : Path) :
    isFileFS fs p = true ↔ ∃ c, lookupFS fs p = some (Entry.file c) := by
  unfold isFileFS
  cases h : lookupFS fs p with
  | none => simp
  | some e => cases e <;> simp

theorem mkdirOne_isDir (fs fs' : FS) (p : Path)
    (h : mkdirOne fs p = Except.ok fs') : isDirFS fs' p = true := by
  unfold mkdirOne at h
  cases hl : lookupFS fs p with
  | none =>
    rw [hl] at h
    cases h
    simp [isDirFS, lookupFS_cons]
  | some e =>
    rw [hl] at h
    cases e with
    | dir => cases h; simp [isDirFS, hl]
    | file c => cases h

theorem mkdirOne_mono (fs fs' : FS) (p q : Path)
    (h : mkdirOne fs p = Except.ok fs') (hq : isDirFS fs q = true) :
    isDirFS fs' q = true := by
  unfold mkdirOne at h
  cases hl : lookupFS fs p with
  | none =>
    rw [hl] at h
    cases h
    by_cases hpq : p = q
    · simp [isDirFS, lookupFS_cons, hpq]
    · rw [isDirFS_iff] at hq ⊢
      rw [lookupFS_cons]
      simpa [hpq] using hq
  | some e =>
    rw [hl] at h
    cases e with
    | dir => cases h; exact hq
    | file c => cases h

theorem foldlM_mkdir_mono :
    ∀ (qs : List Path) (fs fs' : FS),
    qs.foldlM mkdirOne fs = Except.ok fs' →
    ∀ q, isDirFS fs q = true → isDirFS fs' q = true := by
  intro qs
  induction qs with
  | nil => intro fs fs' h q hq; cases h; exact hq
  | cons a qs ih =>
    intro fs fs' h q hq
    rw [List.foldlM_cons] at h
    cases ha : mkdirOne fs a with
    | error e => rw [ha] at h; cases h
    | ok fs1 =>
      rw [ha] at h
      exact ih fs1 fs' h q (mkdirOne_mono fs fs1 a q ha hq)

theorem foldlM_mkdir_isDir :
    ∀ (qs : List Path) (fs fs' : FS),
    qs.foldlM mkdirOne fs = Except.ok fs' →
    ∀ q ∈ qs, isDirFS fs' q = true := by
  intro qs
  induction qs with
  | nil => intro fs fs' _ q hq; simp at hq
  | cons a qs ih =>
    intro fs fs' h q hq
    rw [List.foldlM_cons] at h
    cases ha : mkdirOne fs a with
    | error e => rw [ha] at h; cases h
    | ok fs1 =>
      rw [ha] at h
      rcases List.mem_cons.mp hq with rfl | hq'
      · exact foldlM_mkdir_mono qs fs1 fs' h q (mkdirOne_isDir fs fs1 q ha)
      · exact ih fs1 fs' h q hq'

theorem mkdirParents_isDir (fs fs' : FS) (p : Path) (hp : p ≠ [])
    (h : mkdirParents fs p = Except.ok fs') : isDirFS fs' p = true := by
  apply foldlM_mkdir_isDir (initSegs p) fs fs' h p
  unfold initSegs
  have hlen : 0 < p.length := List.length_pos.mpr hp
  refine List.mem_map.mpr ⟨p.length - 1, ?_, ?_⟩
  · exact List.mem_range.mpr (Nat.sub_lt hlen Nat.one_pos)
  · rw [Nat.sub_add_cancel hlen, List.take_length]

theorem foldlM_mkdir_dirs_noop :
    ∀ (qs : List Path) (fs : FS),
    (∀ q ∈ qs, isDirFS fs q = true) →
    qs.foldlM mkdirOne fs = Except.ok fs := by
  intro qs
  induction qs with
  | nil => intro fs _; rfl
  | cons a qs ih =>
    intro fs hall
    rw [List.foldlM_cons]
    have ha : mkdirOne fs a = Except.ok fs := by
      unfold mkdirOne
      rw [(isDirFS_iff fs a).mp (hall a (List.mem_cons_self a qs))]
    rw [ha]
    exact ih fs (fun q hq => hall q (List.mem_cons_of_mem a hq))

theorem mkdirParents_file_error (fs : FS) (p : Path) (hp : 0 < p.length)
    (hfile : isFileFS fs p = true)
    (hanc : ∀ i, i + 1 < p.length → isDirFS fs (p.take (i + 1)) = true) :
    mkdirParents fs p = Except.error (PyError.fileExistsError p) := by
  obtain ⟨m, hm⟩ : ∃ m, p.length = m + 1 :=
    ⟨p.length - 1, (Nat.sub_add_cancel hp).symm⟩
  unfold mkdirParents initSegs
  rw [hm, List.range_succ, List.map_append, List.foldlM_append]
  have hfirst : ((List.range m).map (fun i => p.take (i + 1))).foldlM
      mkdirOne fs = Except.ok fs := by
    apply foldlM_mkdir_dirs_noop
    intro q hq
    obtain ⟨i, hi, rfl⟩ := List.mem_map.mp hq
    exact hanc i (by rw [hm]; exact Nat.succ_lt_succ (List.mem_range.mp hi))
  rw [hfirst]
  have htake : p.take (m + 1) = p := by rw [← hm, List.take_length]
  obtain ⟨c, hc⟩ := (isFileFS_iff fs p).mp hfile
  simp [List.foldlM_cons, mkdirOne, htake, hc, Bind.bind, Except.bind]

/-! ## Stem and glob lemmas -/

theorem findIdx_dot_concat (pre : Name) :
    ((pre ++ dotHeic).reverse).findIdx? (· == '.') = some 4 := by
  rw [List.reverse_append]
  simp [dotHeic]

theorem nameStem_concat_heic (pre : Name) (hpre : pre ≠ []) :
    nameStem (pre ++ dotHeic) = pre := by
  have hfind : lastDotIdx (pre ++ dotHeic) = some pre.length := by
    unfold lastDotIdx
    rw [findIdx_dot_concat]
    simp [dotHeic]
  unfold nameStem
  rw [hfind]
  have h0 : 0 < pre.length := List.length_pos.mpr hpre
  have h1 : pre.length + 1 < (pre ++ dotHeic).length := by
    simp [dotHeic]
  dsimp only
  rw [if_pos ⟨h0, h1⟩, List.take_left]

theorem childNames_nodup (fs : FS) (dir : Path)
    (h : (fs.map Prod.fst).Nodup) : (childNames fs dir).Nodup := by
  unfold childNames
  apply List.Nodup.filterMap _ h
  intro p p' n hn hn'
  have split : ∀ q : Path, n ∈ (match q.getLast? with
      | some m => if q.dropLast = dir then some m else none
      | none => none) → q = dir ++ [n] := by
    intro q hq
    cases hql : q.getLast? with
    | none => rw [hql] at hq; simp at hq
    | some m =>
      rw [hql] at hq
      dsimp only at hq
      by_cases hd : q.dropLast = dir
      · rw [if_pos hd, Option.mem_def, Option.some.injEq] at hq
        rw [hq] at hql
        have hne : q ≠ [] := by
          intro h0; rw [h0] at hql; simp at hql
        have hlast : q.getLast hne = n := by
          have := List.getLast?_eq_getLast q hne
          rw [hql] at this
          exact (Option.some.injEq _ _ ▸ this.symm)
        rw [← List.dropLast_concat_getLast hne, hd, hlast]
      · rw [if_neg hd] at hq; simp at hq
  rw [split p hn, split p' hn']

theorem globHeic_nodup (fs : FS) (dir : Path)
    (h : (fs.map Prod.fst).Nodup) : (globHeic fs dir).Nodup :=
  List.Nodup.filter _ (childNames_nodup fs dir h)

theorem batchTasks_nodup (fs : FS) (inputDir outDir : Path)
    (h : (fs.map Prod.fst).Nodup) : (batchTasks fs inputDir outDir).Nodup := by
  unfold batchTasks
  apply List.Nodup.map_on _ (globHeic_nodup fs inputDir h)
  intro x _ y _ hxy
  have hfst := congrArg Prod.fst hxy
  simp only at hfst
  simpa using List.append_cancel_left hfst

theorem isOkE_eq_true {ε α : Type} (r : Except ε α) (h : isOkE r = true) :
    ∃ v, r = Except.ok v := by
  cases r with
  | ok v => exact ⟨v, rfl⟩
  | error e => simp [isOkE] at h

theorem filterMap_unique {α β : Type} :
    ∀ (l : List α) (f : α → Option β) (a : α) (b : β),
    l.Nodup → a ∈ l → f a = some b → (∀ x ∈ l, x ≠ a → f x = none) →
    l.filterMap f = [b] := by
  intro l
  induction l with
  | nil => intro f a b _ ha; simp at ha
  | cons x l ih =>
    intro f a b hnd ha hfa hother
    rw [List.nodup_cons] at hnd
    rcases List.mem_cons.mp ha with rfl | ha'
    · rw [List.filterMap_cons_some hfa]
      have : l.filterMap f = [] := by
        rw [List.filterMap_eq_nil_iff]
        intro y hy
        exact hother y (List.mem_cons_of_mem a hy)
          (fun hya => hnd.1 (hya ▸ hy))
      rw [this]
    · have hxa : x ≠ a := fun hxa => hnd.1 (hxa ▸ ha')
      rw [List.filterMap_cons_none (hother x (List.mem_cons_self x l) hxa)]
      exact ih f a b hnd.2 ha' hfa
        (fun y hy hya => hother y (List.mem_cons_of_mem x hy) hya)

/-- The per-task batch report: one entry per discovered HEIC file, in
task order. -/
def batchReport (d : Path → Except String Image) (fs1 : FS)
    (input outDir : Path) : List (Except (Path × String) Path) :=
  (runBatchResults d fs1 (batchTasks fs1 input outDir)).2

/-! ## Concrete fixtures for evaluating the theorems -/

/-- A small RGBA test image: one fully transparent and one opaque pixel. -/
def wImg : Image := ⟨Mode.RGBA, [[10, 20, 30, 0], [1, 2, 3, 255]], []⟩

/-- A decode oracle that decodes every path to `wImg`. -/
def wDecode : Path → Except String Image := fun _ => Except.ok wImg

/-- A decode oracle that fails on every path. -/
def wFailDecode : Path → Except String Image := fun _ => Except.error "broken"

/-- A small filesystem: a directory, a regular file, two HEIC files. -/
def wFS : FS :=
  [(["photos".toList], Entry.dir),
   (["note.txt".toList], Entry.file none),
   (["photos".toList, "a.heic".toList], Entry.file none),
   (["photos".toList, "b.heic".toList], Entry.file none)]

/-! ## Claim theorems -/

/-- C6: path/mode validation fails fast: a missing input path raises
`FileNotFoundError` before any output-directory creation or conversion
work, and an input of the wrong type for the requested mode raises
`ValueError`; in each case no conversion is attempted (the result is the
same for every codec oracle `d` and carries no filesystem change). -/
theorem c6_validation_fails_fast (d : Path → Except String Image) (fs : FS)
    (input : Path) (output : Option Path) (batch : Bool) :
    (pathExists fs input = false →
      convert_heic_to_png d fs input output batch =
        Except.error (PyError.fileNotFoundError
          ("Input path does not exist: " ++ pathStr input))) ∧
    (pathExists fs input = true → batch = true → isDirFS fs input = false →
      convert_heic_to_png d fs input output batch =
        Except.error (PyError.valueError
          "Input path must be a directory when batch=True")) ∧
    (pathExists fs input = true → batch = false → isFileFS fs input = false →
      convert_heic_to_png d fs input output batch =
        Except.error (PyError.valueError
          "Input path must be a file when batch=False")) := by
  refine ⟨fun h => ?_, fun h hb hd => ?_, fun h hb hf => ?_⟩
  · unfold convert_heic_to_png
    simp [h]
  · subst hb
    unfold convert_heic_to_png
    simp [h, hd]
  · subst hb
    unfold convert_heic_to_png
    simp [h, hf]

/-- Witness for C6 at concrete inputs: a missing path, a regular file in
batch mode, and a directory in single mode. -/
theorem c6_validation_fails_fast_witness :
    (convert_heic_to_png wDecode wFS ["nope".toList] none true =
      Except.error (PyError.fileNotFoundError
        "Input path does not exist: nope")) ∧
    (convert_heic_to_png wDecode wFS ["note.txt".toList] none true =
      Except.error (PyError.valueError
        "Input path must be a directory when batch=True")) ∧
    (convert_heic_to_png wDecode wFS ["photos".toList] none false =
      Except.error (PyError.valueError
        "Input path must be a file when batch=False")) :=
  ⟨by
    have h := (c6_validation_fails_fast wDecode wFS ["nope".toList]
      none true).1 (by decide)
    simpa using h,
   (c6_validation_fails_fast wDecode wFS ["note.txt".toList] none true).2.1
     (by decide) rfl (by decide),
   (c6_validation_fails_fast wDecode wFS ["photos".toList] none false).2.2
     (by decide) rfl (by decide)⟩

/-- C7: a batch run over a directory with zero `*.heic` matches returns
the empty success list (not an error) and has still created the output
directory before returning. -/
theorem c7_batch_zero_matches (d : Path → Except String Image) (fs fs1 : FS)
    (input : Path) (output : Option Path)
    (hex : pathExists fs input = true)
    (hdir : isDirFS fs input = true)
    (hmk : mkdirParents fs (batchOutDir input output) = Except.ok fs1)
    (hnil : globHeic fs1 input = [])
    (hne : batchOutDir input output ≠ []) :
    convert_heic_to_png d fs input output true =
      Except.ok (fs1, ConvResult.batch [], []) ∧
    isDirFS fs1 (batchOutDir input output) = true := by
  constructor
  · unfold convert_heic_to_png
    simp [hex, hdir, hmk, hnil]
  · exact mkdirParents_isDir fs fs1 _ hne hmk

/-- Witness for C7: an empty photo directory; the `converted` output
directory is created and the call returns an empty list. -/
theorem c7_batch_zero_matches_witness :
    convert_heic_to_png wDecode [(["empty".toList], Entry.dir)]
        ["empty".toList] none true =
      Except.ok ((["empty".toList, "converted".toList], Entry.dir) ::
          [(["empty".toList], Entry.dir)],
        ConvResult.batch [], []) ∧
    isDirFS ((["empty".toList, "converted".toList], Entry.dir) ::
        [(["empty".toList], Entry.dir)])
      (batchOutDir ["empty".toList] none) = true :=
  c7_batch_zero_matches wDecode [(["empty".toList], Entry.dir)] _
    ["empty".toList] none (by decide) (by decide) (by decide) (by decide)
    (by decide)

/-- C10: in batch mode, when the given output path names an existing
regular file, the `mkdir` step raises `FileExistsError` before any HEIC
discovery or conversion (the result is the same for every codec oracle
`d`, and no PNG is written: the error carries no filesystem change). -/
theorem c10_output_is_file (d : Path → Except String Image) (fs : FS)
    (input op : Path)
    (hex : pathExists fs input = true)
    (hdir : isDirFS fs input = true)
    (hop : isFileFS fs op = true)
    (hlen : 0 < op.length)
    (hanc : ∀ i, i + 1 < op.length → isDirFS fs (op.take (i + 1)) = true) :
    convert_heic_to_png d fs input (some op) true =
      Except.error (PyError.fileExistsError op) := by
  have hmk := mkdirParents_file_error fs op hlen hop hanc
  unfold convert_heic_to_png
  simp only [batchOutDir, Option.getD_some]
  simp [hex, hdir, hmk]

/-- Witness for C10: the output argument names the regular file
`note.txt`; the call fails with `FileExistsError` and no conversion
happens. -/
theorem c10_output_is_file_witness :
    convert_heic_to_png wDecode wFS ["photos".toList]
        (some ["note.txt".toList]) true =
      Except.error (PyError.fileExistsError ["note.txt".toList]) :=
  c10_output_is_file wDecode wFS ["photos".toList] ["note.txt".toList]
    (by decide) (by decide) (by decide) (by decide)
    (fun i hi => by simp at hi)

/-- C3: every failure inside `_convert_single_file` is re-raised wrapped
as `Exception(f"Error converting {input_file}: {cause}")`: the error
carries the offending file path and the original cause message, and no
raw low-level error escapes. -/
theorem c3_errors_wrapped (d : Path → Except String Image) (fs : FS)
    (input output : Path) (e : String)
    (h : convert_single_file d fs input output = Except.error e) :
    ∃ cause, e = "Error converting " ++ pathStr input ++ ": " ++ cause := by
  obtain ⟨c, hc⟩ := convert_single_file_error d fs input output e h
  exact ⟨c, by rw [hc]; rfl⟩

/-- Witness for C3: a failing decode surfaces as the wrapped message with
the file path and the cause. -/
theorem c3_errors_wrapped_witness :
    ∃ cause, "Error converting photos/a.heic: broken" =
      "Error converting " ++ pathStr ["photos".toList, "a.heic".toList] ++
        ": " ++ cause :=
  c3_errors_wrapped wFailDecode wFS ["photos".toList, "a.heic".toList]
    ["out.png".toList] "Error converting photos/a.heic: broken" (by decide)

theorem normalizeColor_rgb_mode (img : Image) :
    (normalizeColor img).mode = Mode.RGB := by
  rcases img with ⟨m, pxs, pal⟩
  cases m <;> simp [normalizeColor, compositeOverWhite, rgbConvert]

theorem normalizeColor_pixlen (img : Image) (hwf : Image.WF img) :
    ∀ px ∈ (normalizeColor img).pixels, px.length = 3 := by
  rcases img with ⟨m, pxs, pal⟩
  cases m with
  | L =>
    intro px hpx
    simp only [normalizeColor, compositeOverWhite, rgbConvert] at hpx
    simp at hpx
    obtain ⟨y, _, hy⟩ := hpx
    rw [← hy]
    rfl
  | LA =>
    intro px hpx
    simp only [normalizeColor, compositeOverWhite] at hpx
    simp at hpx
    obtain ⟨y, _, hy⟩ := hpx
    rw [← hy]
    rfl
  | P =>
    intro px hpx
    simp only [normalizeColor, compositeOverWhite, rgbConvert] at hpx
    simp at hpx
    obtain ⟨y, _, hy⟩ := hpx
    rw [← hy]
    rfl
  | RGB =>
    intro px hpx
    simp only [normalizeColor] at hpx
    simp at hpx
    exact hwf px (by simpa using hpx)
  | RGBA =>
    intro px hpx
    simp only [normalizeColor, compositeOverWhite] at hpx
    simp at hpx
    obtain ⟨y, _, hy⟩ := hpx
    rw [← hy]
    rfl

/-- C2: `_convert_single_file` normalizes color before encoding: an
image with an alpha channel (`RGBA` or `LA`) is composited over an opaque
white background with the alpha channel as the blend mask; any other
non-`RGB` mode is converted to `RGB`; `RGB` passes through; and the
written PNG is always opaque `RGB` (three channels, no alpha),
regardless of input mode. -/
theorem c2_color_normalized (d : Path → Except String Image) (fs : FS)
    (input output : Path) (fs' : FS) (o : Path) (img : Image)
    (himg : d input = Except.ok img)
    (hwf : Image.WF img)
    (hok : convert_single_file d fs input output = Except.ok (fs', o)) :
    ((img.mode = Mode.RGBA ∨ img.mode = Mode.LA) →
      normalizeColor img = compositeOverWhite img) ∧
    (img.mode ≠ Mode.RGBA → img.mode ≠ Mode.LA → img.mode ≠ Mode.RGB →
      normalizeColor img = rgbConvert img) ∧
    (img.mode = Mode.RGB → normalizeColor img = img) ∧
    (normalizeColor img).mode = Mode.RGB ∧
    (∀ px ∈ (normalizeColor img).pixels, px.length = 3) ∧
    lookupFS fs' output = some (Entry.file (some (normalizeColor img))) := by
  obtain ⟨ho, img', himg', hfs'⟩ :=
    convert_single_file_ok d fs input output fs' o hok
  rw [himg] at himg'
  injection himg' with himg'
  subst himg'
  refine ⟨?_, ?_, ?_, normalizeColor_rgb_mode img,
    normalizeColor_pixlen img hwf, ?_⟩
  · intro h
    unfold normalizeColor
    rw [if_pos h]
  · intro h1 h2 h3
    unfold normalizeColor
    rw [if_neg (by tauto), if_pos h3]
  · intro h
    unfold normalizeColor
    rw [if_neg (by simp [h]), if_neg (by simp [h])]
  · rw [hfs', lookupFS_setFile]
    simp

/-- The normalized form of `wImg`: the transparent pixel becomes white,
the opaque pixel keeps its color. -/
def wNorm : Image := ⟨Mode.RGB, [[255, 255, 255], [1, 2, 3]], []⟩

/-- The destination used by the single-file witnesses. -/
def wOut : Path := ["photos".toList, "a.png".toList]

/-- Witness for C2: converting the RGBA test image writes an opaque RGB
PNG whose transparent pixel was composited to white. -/
theorem c2_color_normalized_witness :
    Image.WF wImg ∧
    (((wImg.mode = Mode.RGBA ∨ wImg.mode = Mode.LA) →
      normalizeColor wImg = compositeOverWhite wImg) ∧
    (wImg.mode ≠ Mode.RGBA → wImg.mode ≠ Mode.LA → wImg.mode ≠ Mode.RGB →
      normalizeColor wImg = rgbConvert wImg) ∧
    (wImg.mode = Mode.RGB → normalizeColor wImg = wImg) ∧
    (normalizeColor wImg).mode = Mode.RGB ∧
    (∀ px ∈ (normalizeColor wImg).pixels, px.length = 3) ∧
    lookupFS (setFile wFS wOut wNorm) wOut =
      some (Entry.file (some (normalizeColor wImg)))) :=
  ⟨by intro px hpx; simp [wImg] at hpx; rcases hpx with h | h <;> subst h <;> rfl,
   c2_color_normalized wDecode wFS ["photos".toList, "a.heic".toList] wOut
     (setFile wFS wOut wNorm) wOut wImg (by decide)
     (by intro px hpx; simp [wImg] at hpx; rcases hpx with h | h <;> subst h <;> rfl)
     (by decide)⟩

/-- C9 (implicit): in single mode with the output argument omitted, the
derived default destination (input with `.png` suffix) is itself checked
with `is_dir()`; when a directory exists at that path the output is
redirected into it as `<that directory>/<input stem>.png` rather than
failing or writing the default path verbatim. -/
theorem c9_default_dest_redirected (d : Path → Except String Image)
    (fs : FS) (input : Path) (fs' : FS) (r : ConvResult)
    (log : List (Path × String))
    (hdirdef : isDirFS fs (withSuffixPng input) = true)
    (hok : convert_heic_to_png d fs input none false =
      Except.ok (fs', r, log)) :
    singleDest fs input none =
      withSuffixPng input ++ [nameStem (input.getLastD []) ++ dotPng] ∧
    r = ConvResult.single
      (withSuffixPng input ++ [nameStem (input.getLastD []) ++ dotPng]) := by
  have hsd : singleDest fs input none =
      withSuffixPng input ++ [nameStem (input.getLastD []) ++ dotPng] := by
    unfold singleDest
    simp [hdirdef]
  refine ⟨hsd, ?_⟩
  unfold convert_heic_to_png at hok
  by_cases hex : pathExists fs input = false
  · rw [if_pos hex] at hok
    cases hok
  · rw [if_neg hex, if_neg (by simp)] at hok
    by_cases hfile : isFileFS fs input = false
    · rw [if_pos hfile] at hok
      cases hok
    · rw [if_neg hfile] at hok
      cases hcs : convert_single_file d fs input (singleDest fs input none) with
      | error e => rw [hcs] at hok; cases hok
      | ok p =>
        rcases p with ⟨fs2, o⟩
        rw [hcs] at hok
        cases hok
        have ho := (convert_single_file_ok _ _ _ _ _ _ hcs).1
        rw [ho, hsd]

/-- The filesystem of the C5 counterexample and C9 witness: the input
`photo.heic` sits next to an existing directory named `photo.png`. -/
def cexFS : FS :=
  [(["photo.heic".toList], Entry.file none),
   (["photo.png".toList], Entry.dir)]

/-- Witness for C9: converting `photo.heic` with no output argument while
a directory `photo.png` exists yields `photo.png/photo.png`. -/
theorem c9_default_dest_redirected_witness :
    singleDest cexFS ["photo.heic".toList] none =
      withSuffixPng ["photo.heic".toList] ++
        [nameStem (["photo.heic".toList].getLastD []) ++ dotPng] ∧
    (ConvResult.single ["photo.png".toList, "photo.png".toList] :
        ConvResult) =
      ConvResult.single
        (withSuffixPng ["photo.heic".toList] ++
          [nameStem (["photo.heic".toList].getLastD []) ++ dotPng]) :=
  c9_default_dest_redirected wDecode cexFS ["photo.heic".toList]
    (setFile cexFS ["photo.png".toList, "photo.png".toList] wNorm)
    (ConvResult.single ["photo.png".toList, "photo.png".toList]) []
    (by decide) (by decide)

/-- C5 counterexample: the claim says an omitted output argument always
yields the input path with its extension replaced by `.png`; but with a
directory named `photo.png` next to `photo.heic`, the call returns
destination `photo.png/photo.png`, not `photo.png`. -/
theorem c5_single_dest_counterexample :
    convert_heic_to_png wDecode cexFS ["photo.heic".toList] none false =
      Except.ok (setFile cexFS ["photo.png".toList, "photo.png".toList] wNorm,
        ConvResult.single ["photo.png".toList, "photo.png".toList], []) ∧
    ConvResult.single ["photo.png".toList, "photo.png".toList] ≠
      ConvResult.single (withSuffixPng ["photo.heic".toList]) := by
  decide

/-- C5 (amended): in single mode the conversion destination is
`singleDest`: when the output argument is given and a directory exists
there, the destination is that directory joined with the input stem plus
`.png`; when it is given otherwise, it is used verbatim; when it is
omitted the destination is the input with extension replaced by `.png`,
unless a directory already exists at that derived path, in which case the
output is redirected into that directory as `<dir>/<stem>.png`. -/
theorem c5_single_dest_amended (d : Path → Except String Image) (fs : FS)
    (input : Path) (output : Option Path) (fs' : FS) (r : ConvResult)
    (log : List (Path × String))
    (hok : convert_heic_to_png d fs input output false =
      Except.ok (fs', r, log)) :
    r = ConvResult.single (singleDest fs input output) ∧
    (∀ op, output = some op → isDirFS fs op = true →
      singleDest fs input output =
        op ++ [nameStem (input.getLastD []) ++ dotPng]) ∧
    (∀ op, output = some op → isDirFS fs op = false →
      singleDest fs input output = op) ∧
    (output = none → isDirFS fs (withSuffixPng input) = false →
      singleDest fs input output = withSuffixPng input) ∧
    (output = none → isDirFS fs (withSuffixPng input) = true →
      singleDest fs input output =
        withSuffixPng input ++ [nameStem (input.getLastD []) ++ dotPng]) := by
  refine ⟨?_, ?_, ?_, ?_, ?_⟩
  · unfold convert_heic_to_png at hok
    by_cases hex : pathExists fs input = false
    · rw [if_pos hex] at hok
      cases hok
    · rw [if_neg hex, if_neg (by simp)] at hok
      by_cases hfile : isFileFS fs input = false
      · rw [if_pos hfile] at hok
        cases hok
      · rw [if_neg hfile] at hok
        cases hcs : convert_single_file d fs input
            (singleDest fs input output) with
        | error e => rw [hcs] at hok; cases hok
        | ok p =>
          rcases p with ⟨fs2, o⟩
          rw [hcs] at hok
          cases hok
          have ho := (convert_single_file_ok _ _ _ _ _ _ hcs).1
          rw [ho]
  · intro op hop hd
    subst hop
    unfold singleDest
    simp [hd]
  · intro op hop hd
    subst hop
    unfold singleDest
    simp [hd]
  · intro hop hd
    subst hop
    unfold singleDest
    simp [hd]
  · intro hop hd
    subst hop
    unfold singleDest
    simp [hd]

/-- Witness for the amended C5, at a run whose output argument is used
verbatim (no directory exists at it). -/
theorem c5_single_dest_amended_witness :
    (ConvResult.single ["out.png".toList] : ConvResult) =
      ConvResult.single
        (singleDest cexFS ["photo.heic".toList] (some ["out.png".toList])) ∧
    (∀ op, (some ["out.png".toList] : Option Path) = some op →
      isDirFS cexFS op = true →
      singleDest cexFS ["photo.heic".toList] (some ["out.png".toList]) =
        op ++ [nameStem (["photo.heic".toList].getLastD []) ++ dotPng]) ∧
    (∀ op, (some ["out.png".toList] : Option Path) = some op →
      isDirFS cexFS op = false →
      singleDest cexFS ["photo.heic".toList] (some ["out.png".toList]) = op) ∧
    ((some ["out.png".toList] : Option Path) = none →
      isDirFS cexFS (withSuffixPng ["photo.heic".toList]) = false →
      singleDest cexFS ["photo.heic".toList] (some ["out.png".toList]) =
        withSuffixPng ["photo.heic".toList]) ∧
    ((some ["out.png".toList] : Option Path) = none →
      isDirFS cexFS (withSuffixPng ["photo.heic".toList]) = true →
      singleDest cexFS ["photo.heic".toList] (some ["out.png".toList]) =
        withSuffixPng ["photo.heic".toList] ++
          [nameStem (["photo.heic".toList].getLastD []) ++ dotPng]) :=
  c5_single_dest_amended wDecode cexFS ["photo.heic".toList]
    (some ["out.png".toList])
    (setFile cexFS ["out.png".toList] wNorm)
    (ConvResult.single ["out.png".toList]) [] (by decide)

/-- Running the batch branch: with validation passed and the output
directory created, `convert_heic_to_png` returns the per-task report
split into its success and failure halves. -/
theorem convert_batch_run (d : Path → Except String Image) (fs fs1 : FS)
    (input : Path) (output : Option Path)
    (hex : pathExists fs input = true)
    (hdir : isDirFS fs input = true)
    (hmk : mkdirParents fs (batchOutDir input output) = Except.ok fs1) :
    convert_heic_to_png d fs input output true =
      Except.ok
        ((runBatchResults d fs1
            (batchTasks fs1 input (batchOutDir input output))).1,
         ConvResult.batch
           ((runBatchResults d fs1
              (batchTasks fs1 input (batchOutDir input output))).2.filterMap
                okPart),
         (runBatchResults d fs1
            (batchTasks fs1 input (batchOutDir input output))).2.filterMap
              errPart) := by
  unfold convert_heic_to_png
  rw [if_neg (by simp [hex]), if_pos rfl, if_neg (by simp [hdir]), hmk]
  dsimp only
  by_cases hglob : globHeic fs1 input = []
  · have htasks : batchTasks fs1 input (batchOutDir input output) = [] := by
      unfold batchTasks
      rw [hglob]
      rfl
    rw [htasks]
    simp [hglob, runBatchResults]
  · have hne : (globHeic fs1 input).isEmpty = false := by
      simpa [List.isEmpty_iff] using hglob
    rw [if_neg (by simp [hne])]
    rw [runBatch_eq]

/-- C1: in a batch run over a directory, the aggregated report has
exactly one entry per discovered `*.heic` file: the report's length is
the number of discovered files, each report entry is either the matching
task's destination path (success) or a `(sourceFile, error)` record
(failure), and the returned success list plus the recorded failures
together account for every discovered file. -/
theorem c1_batch_report_complete (d : Path → Except String Image)
    (fs fs1 : FS) (input : Path) (output : Option Path)
    (hex : pathExists fs input = true)
    (hdir : isDirFS fs input = true)
    (hmk : mkdirParents fs (batchOutDir input output) = Except.ok fs1) :
    ∃ fs2,
      convert_heic_to_png d fs input output true =
        Except.ok (fs2,
          ConvResult.batch
            ((batchReport d fs1 input (batchOutDir input output)).filterMap
              okPart),
          (batchReport d fs1 input (batchOutDir input output)).filterMap
            errPart) ∧
      (batchReport d fs1 input (batchOutDir input output)).length =
        (globHeic fs1 input).length ∧
      (∀ pr ∈ (batchReport d fs1 input (batchOutDir input output)).zip
          (batchTasks fs1 input (batchOutDir input output)),
        pr.1 = Except.ok pr.2.2 ∨ ∃ e, pr.1 = Except.error (pr.2.1, e)) ∧
      ((batchReport d fs1 input
          (batchOutDir input output)).filterMap okPart).length +
        ((batchReport d fs1 input
          (batchOutDir input output)).filterMap errPart).length =
        (globHeic fs1 input).length := by
  refine ⟨_, convert_batch_run d fs fs1 input output hex hdir hmk,
    ?_, ?_, ?_⟩
  · unfold batchReport
    rw [runBatchResults_length]
    unfold batchTasks
    rw [List.length_map]
  · intro pr hpr
    exact runBatchResults_spec d _ fs1 pr hpr
  · unfold batchReport
    rw [filterMap_parts_length, runBatchResults_length]
    unfold batchTasks
    rw [List.length_map]

/-- The filesystem after the batch output directory `photos/converted`
has been created inside `wFS`. -/
def wFS1 : FS := (["photos".toList, "converted".toList], Entry.dir) :: wFS

/-- Witness for C1: a batch over `photos` (two HEIC files). -/
theorem c1_batch_report_complete_witness :
    ∃ fs2,
      convert_heic_to_png wDecode wFS ["photos".toList] none true =
        Except.ok (fs2,
          ConvResult.batch
            ((batchReport wDecode wFS1 ["photos".toList]
              (batchOutDir ["photos".toList] none)).filterMap okPart),
          (batchReport wDecode wFS1 ["photos".toList]
            (batchOutDir ["photos".toList] none)).filterMap errPart) ∧
      (batchReport wDecode wFS1 ["photos".toList]
          (batchOutDir ["photos".toList] none)).length =
        (globHeic wFS1 ["photos".toList]).length ∧
      (∀ pr ∈ (batchReport wDecode wFS1 ["photos".toList]
          (batchOutDir ["photos".toList] none)).zip
          (batchTasks wFS1 ["photos".toList]
            (batchOutDir ["photos".toList] none)),
        pr.1 = Except.ok pr.2.2 ∨ ∃ e, pr.1 = Except.error (pr.2.1, e)) ∧
      ((batchReport wDecode wFS1 ["photos".toList]
          (batchOutDir ["photos".toList] none)).filterMap okPart).length +
        ((batchReport wDecode wFS1 ["photos".toList]
          (batchOutDir ["photos".toList] none)).filterMap errPart).length =
        (globHeic wFS1 ["photos".toList]).length :=
  c1_batch_report_complete wDecode wFS wFS1 ["photos".toList] none
    (by decide) (by decide) (by decide)

/-- Writing one more file into the shared output directory never breaks
another task's ability to convert: the write target stays a non-directory
and the output directory stays a directory, even when the new write
overwrites the other task's destination. -/
theorem savePNG_ok_setFile (fs : FS) (od dst w : Path) (iw img : Image)
    (m n : Name) (hw : w = od ++ [m]) (hdst : dst = od ++ [n])
    (h : ∃ fs2, savePNG fs dst img = Except.ok fs2) :
    ∃ fs3, savePNG (setFile fs w iw) dst img = Except.ok fs3 := by
  obtain ⟨fs2, h⟩ := h
  unfold savePNG at h ⊢
  have hne : dst ≠ [] := by
    rw [hdst]
    exact fun hcontra => by simp at hcontra
  rw [if_neg hne] at h ⊢
  have hdrop : dst.dropLast = od := by
    rw [hdst, List.dropLast_concat]
  have hdir1 : isDirFS fs dst = false := by
    by_cases hd : isDirFS fs dst = true
    · rw [if_pos hd] at h
      cases h
    · simpa using hd
  have hdir1' : isDirFS (setFile fs w iw) dst = false := by
    by_cases hdw : dst = w
    · subst hdw
      simp [isDirFS, lookupFS_setFile]
    · rw [isDirFS_setFile fs w iw dst hdw]
      exact hdir1
  rw [if_neg (by simp [hdir1])] at h
  rw [if_neg (by simp [hdir1'])]
  have hwod : od ≠ w := by
    rw [hw]
    intro hcontra
    have := congrArg List.length hcontra
    simp at this
  have hdir2 : isDirFS (setFile fs w iw) dst.dropLast =
      isDirFS fs dst.dropLast := by
    rw [hdrop, isDirFS_setFile fs w iw od hwod]
  by_cases hcond : (dst.length = 1 || isDirFS fs dst.dropLast) = true
  · rw [if_pos (by rw [hdir2]; exact hcond)]
    exact ⟨_, rfl⟩
  · rw [if_neg hcond] at h
    cases h

/-- As `savePNG_ok_setFile`, lifted to whole single-file conversions. -/
theorem isOkE_convert_setFile (d : Path → Except String Image) (fs : FS)
    (od src dst w : Path) (iw : Image) (m n : Name)
    (hw : w = od ++ [m]) (hdst : dst = od ++ [n])
    (hok : isOkE (convert_single_file d fs src dst) = true) :
    isOkE (convert_single_file d (setFile fs w iw) src dst) = true := by
  unfold convert_single_file convertBody at hok ⊢
  cases hd : d src with
  | error e =>
    rw [hd] at hok
    simp [isOkE] at hok
  | ok img =>
    rw [hd] at hok
    dsimp only at hok ⊢
    cases hs : savePNG fs dst (normalizeColor img) with
    | error e =>
      rw [hs] at hok
      simp [isOkE] at hok
    | ok fs2 =>
      obtain ⟨fs3, hs3⟩ := savePNG_ok_setFile fs od dst w iw
        (normalizeColor img) m n hw hdst ⟨fs2, hs⟩
      rw [hs3]
      rfl

/-- A batch run with exactly the occurrences of one decode-failing task
as failures: every other task converts (initially and, by
`isOkE_convert_setFile`, at every intermediate filesystem of the run), so
the recorded failures are the bad task's occurrences, each wrapped with
its source file and cause. -/
theorem runBatchResults_errs_one_bad (d : Path → Except String Image)
    (od : Path) (bad : Path × Path) (msg : String)
    (hfail : d bad.1 = Except.error msg) :
    ∀ (ts : List (Path × Path)) (fs : FS),
    (∀ t ∈ ts, ∃ n, t.2 = od ++ [n]) →
    (∀ t ∈ ts, t ≠ bad → isOkE (convert_single_file d fs t.1 t.2) = true) →
    ((runBatchResults d fs ts).2).filterMap errPart =
      List.replicate (ts.count bad) (bad.1, convErrMsg bad.1 msg) := by
  intro ts
  induction ts with
  | nil => intro fs _ _; rfl
  | cons t ts ih =>
    intro fs hshape hgood
    by_cases htb : t = bad
    · subst htb
      have hbadrun : convert_single_file d fs t.1 t.2 =
          Except.error (convErrMsg t.1 msg) := by
        unfold convert_single_file convertBody
        rw [hfail]
      unfold runBatchResults
      rw [hbadrun]
      dsimp only
      rw [List.filterMap_cons_some (by rfl : errPart
        (Except.error (t.1, convErrMsg t.1 msg)) = some (t.1, convErrMsg t.1 msg))]
      rw [ih fs (fun u hu => hshape u (List.mem_cons_of_mem t hu))
        (fun u hu hub => hgood u (List.mem_cons_of_mem t hu) hub)]
      rw [List.count_cons_self, List.replicate_succ]
    · obtain ⟨v, hv⟩ := isOkE_eq_true _
        (hgood t (List.mem_cons_self t ts) htb)
      rcases v with ⟨fsv, ov⟩
      obtain ⟨ho, img, himg, hfsv⟩ := convert_single_file_ok d fs t.1 t.2
        fsv ov hv
      obtain ⟨n, hn⟩ := hshape t (List.mem_cons_self t ts)
      unfold runBatchResults
      rw [hv]
      dsimp only
      rw [List.filterMap_cons_none (by rfl : errPart (Except.ok ov) = none)]
      rw [ih fsv (fun u hu => hshape u (List.mem_cons_of_mem t hu))
        (fun u hu hub => by
          obtain ⟨nu, hnu⟩ := hshape u (List.mem_cons_of_mem t hu)
          rw [hfsv]
          exact isOkE_convert_setFile d fs od u.1 u.2 t.2
            (normalizeColor img) n nu hn hnu
            (hgood u (List.mem_cons_of_mem t hu) hub))]
      rw [List.count_cons_of_ne (fun hcontra => htb hcontra.symm)]

theorem count_one_of_nodup_mem {α : Type} [BEq α] [LawfulBEq α] :
    ∀ (l : List α) (a : α), l.Nodup → a ∈ l → l.count a = 1 := by
  intro l
  induction l with
  | nil => intro a _ ha; simp at ha
  | cons x l ih =>
    intro a hnd ha
    rw [List.nodup_cons] at hnd
    rcases List.mem_cons.mp ha with rfl | ha'
    · rw [List.count_cons_self]
      have hz : l.count a = 0 := List.count_eq_zero.mpr hnd.1
      rw [hz]
    · have hxa : a ≠ x := fun h => hnd.1 (h ▸ ha')
      rw [List.count_cons_of_ne hxa]
      exact ih a hnd.2 ha'

/-- C4: one failing conversion does not abort the batch: when one task's
source is corrupted (its decode fails) and every other task converts
cleanly, the run still returns the success list without raising, with the
single failure recorded as its `(source file, wrapped message)` entry and
all other `N - 1` tasks accounted as successes. -/
theorem c4_single_failure_isolated (d : Path → Except String Image)
    (fs fs1 : FS) (input : Path) (output : Option Path)
    (bad : Path × Path) (msg : String)
    (hex : pathExists fs input = true)
    (hdir : isDirFS fs input = true)
    (hmk : mkdirParents fs (batchOutDir input output) = Except.ok fs1)
    (hkeys : (fs1.map Prod.fst).Nodup)
    (hbad : bad ∈ batchTasks fs1 input (batchOutDir input output))
    (hfail : d bad.1 = Except.error msg)
    (hrest : ∀ t ∈ batchTasks fs1 input (batchOutDir input output),
      t ≠ bad → isOkE (convert_single_file d fs1 t.1 t.2) = true) :
    ∃ fs2 succ,
      convert_heic_to_png d fs input output true =
        Except.ok (fs2, ConvResult.batch succ,
          [(bad.1, convErrMsg bad.1 msg)]) ∧
      succ.length + 1 =
        (batchTasks fs1 input (batchOutDir input output)).length := by
  have hshape : ∀ t ∈ batchTasks fs1 input (batchOutDir input output),
      ∃ n, t.2 = batchOutDir input output ++ [n] := by
    intro t ht
    obtain ⟨n, hn, rfl⟩ := List.mem_map.mp ht
    exact ⟨nameStem n ++ dotPng, rfl⟩
  have hcount :
      (batchTasks fs1 input (batchOutDir input output)).count bad = 1 :=
    count_one_of_nodup_mem _ bad
      (batchTasks_nodup fs1 input (batchOutDir input output) hkeys) hbad
  have herrs : ((runBatchResults d fs1
      (batchTasks fs1 input (batchOutDir input output))).2).filterMap
        errPart = [(bad.1, convErrMsg bad.1 msg)] := by
    rw [runBatchResults_errs_one_bad d (batchOutDir input output) bad msg
      hfail (batchTasks fs1 input (batchOutDir input output)) fs1 hshape
      hrest, hcount]
    rfl
  have herrlen : (((runBatchResults d fs1
      (batchTasks fs1 input (batchOutDir input output))).2).filterMap
        errPart).length = 1 := by
    rw [herrs]
    rfl
  refine ⟨(runBatchResults d fs1
      (batchTasks fs1 input (batchOutDir input output))).1,
    (runBatchResults d fs1
      (batchTasks fs1 input (batchOutDir input output))).2.filterMap okPart,
    ?_, ?_⟩
  · rw [convert_batch_run d fs fs1 input output hex hdir hmk, herrs]
  · have hparts := filterMap_parts_length
      (runBatchResults d fs1
        (batchTasks fs1 input (batchOutDir input output))).2
    rw [runBatchResults_length] at hparts
    rw [← hparts, herrlen]

/-- A decode oracle that fails on `photos/a.heic` and succeeds elsewhere. -/
def wDecodeBad : Path → Except String Image := fun p =>
  if p = ["photos".toList, "a.heic".toList] then Except.error "corrupt"
  else Except.ok wImg

/-- Witness for C4: two HEIC files, one corrupted; the other still
converts, the batch returns without raising, and exactly the corrupted
file is recorded as a failure. -/
theorem c4_single_failure_isolated_witness :
    ∃ fs2 succ,
      convert_heic_to_png wDecodeBad wFS ["photos".toList] none true =
        Except.ok (fs2, ConvResult.batch succ,
          [((["photos".toList, "a.heic".toList] : Path),
            convErrMsg ["photos".toList, "a.heic".toList] "corrupt")]) ∧
      succ.length + 1 =
        (batchTasks wFS1 ["photos".toList]
          (batchOutDir ["photos".toList] none)).length :=
  c4_single_failure_isolated wDecodeBad wFS wFS1 ["photos".toList] none
    (["photos".toList, "a.heic".toList],
     ["photos".toList, "converted".toList, "a.png".toList]) "corrupt"
    (by decide) (by decide) (by decide) (by decide) (by decide) (by decide)
    (by decide)

/-- Fixture for the C8 counterexample: a directory holding the hidden
HEIC files `.heic` and `.heic.heic`.  `glob("*.heic")` matches both, and
their `pathlib` stems coincide (both are `".heic"`). -/
def c8FS : FS :=
  [(["photos".toList], Entry.dir),
   (["photos".toList, ".heic".toList], Entry.file none),
   (["photos".toList, ".heic.heic".toList], Entry.file none)]

/-- C8 counterexample: the batch over `c8FS` discovers two distinct
source files but derives the same destination `out/.heic.png` for both,
so "no two tasks in the same batch have the same destination file" fails
on the code. -/
theorem c8_task_invariants_counterexample :
    (batchTasks c8FS ["photos".toList] ["out".toList]).length = 2 ∧
    ((batchTasks c8FS ["photos".toList] ["out".toList]).map
      Prod.fst).Nodup ∧
    ¬ ((batchTasks c8FS ["photos".toList] ["out".toList]).map
      Prod.snd).Nodup := by
  decide

/-- C8 (amended): every batch task's destination file is the output
directory joined with the source file's stem plus the `.png` suffix; and
no two tasks of one batch share a destination file whenever the
discovered files' stems are pairwise distinct — which can fail for hidden
names, e.g. `.heic` and `.heic.heic` share the stem `.heic`. -/
theorem c8_task_invariants_amended (fs : FS) (inputDir outDir : Path) :
    (∀ t ∈ batchTasks fs inputDir outDir, ∃ n, matchesHeic n = true ∧
      t.1 = inputDir ++ [n] ∧ t.2 = outDir ++ [nameStem n ++ dotPng] ∧
      dotPng.isSuffixOf (nameStem n ++ dotPng) = true) ∧
    (((globHeic fs inputDir).map nameStem).Nodup →
      ((batchTasks fs inputDir outDir).map Prod.snd).Nodup) := by
  constructor
  · intro t ht
    obtain ⟨n, hn, rfl⟩ := List.mem_map.mp ht
    refine ⟨n, (List.mem_filter.mp hn).2, rfl, rfl, ?_⟩
    exact List.isSuffixOf_iff_suffix.mpr (List.suffix_append _ _)
  · intro hstems
    unfold batchTasks
    rw [List.map_map]
    have hcomp : (Prod.snd ∘ fun n =>
        (inputDir ++ [n], outDir ++ [nameStem n ++ dotPng])) =
        (fun s => outDir ++ [s ++ dotPng]) ∘ nameStem := rfl
    rw [hcomp, ← List.map_map]
    apply List.Nodup.map_on _ hstems
    intro x _ y _ hxy
    have h1 : x ++ dotPng = y ++ dotPng := by
      simpa using List.append_cancel_left hxy
    exact List.append_cancel_right h1

/-- Witness for the amended C8: over `wFS` the stems `a` and `b` are
distinct, so the two destinations are distinct. -/
theorem c8_task_invariants_amended_witness :
    (∀ t ∈ batchTasks wFS ["photos".toList] ["out".toList],
      ∃ n, matchesHeic n = true ∧
        t.1 = ["photos".toList] ++ [n] ∧
        t.2 = ["out".toList] ++ [nameStem n ++ dotPng] ∧
        dotPng.isSuffixOf (nameStem n ++ dotPng) = true) ∧
    ((batchTasks wFS ["photos".toList] ["out".toList]).map Prod.snd).Nodup :=
  ⟨(c8_task_invariants_amended wFS ["photos".toList] ["out".toList]).1,
   (c8_task_invariants_amended wFS ["photos".toList] ["out".toList]).2
     (by decide)⟩

end HeicPng
